import Mathlib

/-
Verification development for the ROC utilities of this repository
(assets/scripts/Python/roc_utils.py and assets/scripts/Python/test.py).

Numbers: Python floats are idealised as exact rationals (ℚ); the square root
in the analytic CI of test.py is idealised as the real square root.

External dependencies are modelled from their documented, deterministic
behaviour:
  - numpy.random.RandomState(seed) is the Mersenne Twister MT19937 seeded by
    init_genrand; RandomState.randint(0, n, n) draws bounded integers by
    masked rejection sampling over 32-bit outputs (numpy's
    bounded_masked_uint32 path, used whenever the range fits in 32 bits).
    The model below reproduces the published MT19937 test value (the 10000th
    output for seed 5489 is 4123659995) and numpy's documented seeded draws.
  - sklearn.metrics.roc_auc_score is the rank-based (Mann-Whitney) AUC with
    ties counting one half; it raises ValueError when the two inputs differ
    in length or when y_true holds fewer than two distinct classes (modelled
    as `none`).
  - numpy.percentile uses linear interpolation between order statistics and
    raises IndexError on an empty array (modelled as `none`).
  - numpy.sort returns the ascending sorted permutation of its input
    (modelled by insertion sort, which computes exactly that list).
-/

namespace Np

/-- Modulus of 32-bit word arithmetic. -/
def U32 : Nat := 4294967296

/-- Truncation to a 32-bit word. -/
def u32 (x : Nat) : Nat := x % U32

/-- State of the Mersenne Twister: the 624-word block (in order) plus the
read position. -/
structure MTState where
  mt : List Nat
  pos : Nat

/-- Seeding of MT19937 (init_genrand), as performed by
numpy.random.RandomState(seed) for integer seeds below 2^32:
mt[0] = seed; mt[i] = 1812433253 * (mt[i-1] xor (mt[i-1] >> 30)) + i,
truncated to 32 bits. The block is accumulated head-first and reversed. -/
def mtInitList (seed : Nat) : List Nat :=
  ((List.range 624).foldl (fun acc i =>
    if i = 0 then [u32 seed]
    else
      let p := acc.headD 0
      u32 (1812433253 * (p ^^^ (p >>> 30)) + i) :: acc) []).reverse

/-- Position after seeding is 624, so the first draw twists. -/
def mtInit (seed : Nat) : MTState := ⟨mtInitList seed, 624⟩

/-- Recurrence of the twist: combine the carried word with y's lower bits,
conditionally xoring the matrix constant on odd y. -/
def twistTop (y r : Nat) : Nat :=
  r ^^^ (y >>> 1) ^^^ (if y % 2 = 1 then 2567483615 else 0)

/-- Concatenation of the top bit of a with the lower 31 bits of b. -/
def mixY (a b : Nat) : Nat := (a &&& 2147483648) ||| (b &&& 2147483647)

/-- One twist of MT19937 (regeneration of the 624-word block), written as
the three loops of the reference implementation: words 0..226 read only the
old block (offset +397); words 227..622 read the freshly written word 227
places earlier; word 623 wraps around to the fresh words 0 and 396. -/
def twist (old : List Nat) : List Nat :=
  let part1 := (List.range 227).map (fun kk =>
    twistTop (mixY (old.getD kk 0) (old.getD (kk + 1) 0)) (old.getD (kk + 397) 0))
  let part2 := ((List.range 396).foldl (fun acc j =>
    let kk := 227 + j
    let fresh := if kk - 227 < 227 then part1.getD (kk - 227) 0 else acc.getD 226 0
    twistTop (mixY (old.getD kk 0) (old.getD (kk + 1) 0)) fresh :: acc) []).reverse
  let last := twistTop (mixY (old.getD 623 0) (part1.getD 0 0)) (part2.getD 169 0)
  part1 ++ part2 ++ [last]

/-- One tempered 32-bit output of MT19937. -/
def next32 (s : MTState) : Nat × MTState :=
  let s := if 624 ≤ s.pos then ⟨twist s.mt, 0⟩ else s
  let y := s.mt.getD s.pos 0
  let y := y ^^^ (y >>> 11)
  let y := y ^^^ ((y <<< 7) &&& 2636928640)
  let y := y ^^^ ((y <<< 15) &&& 4022730752)
  let y := y ^^^ (y >>> 18)
  (y, ⟨s.mt, s.pos + 1⟩)

/-- Smallest mask of the form 2^k - 1 covering r (numpy's gen_mask). -/
def genMask (r : Nat) : Nat :=
  let m := r ||| (r >>> 1)
  let m := m ||| (m >>> 2)
  let m := m ||| (m >>> 4)
  let m := m ||| (m >>> 8)
  let m := m ||| (m >>> 16)
  m ||| (m >>> 32)

/-- Fuel for the rejection loop; the loop is fuelled only to be total in
Lean, and the fuel is never exhausted on the concrete streams used here. -/
def drawFuel : Nat := 64

/-- Masked rejection sampling (numpy's bounded_masked_uint32): draw a 32-bit
word, mask it, retry while the value exceeds rngMax. -/
def boundedDraw (fuel mask rngMax : Nat) (s : MTState) : Nat × MTState :=
  match fuel with
  | 0 => (0, s)
  | f + 1 =>
    let w := (next32 s).1 &&& mask
    if w ≤ rngMax then (w, (next32 s).2) else boundedDraw f mask rngMax (next32 s).2

/-- Sequential fill of `count` masked-rejection draws. -/
def randintLoop : Nat → Nat → Nat → MTState → List Nat × MTState
  | 0, _, _, st => ([], st)
  | c + 1, mask, rngMax, st =>
    let d := boundedDraw drawFuel mask rngMax st
    let rest := randintLoop c mask rngMax d.2
    (d.1 :: rest.1, rest.2)

/-- RandomState.randint(0, bound, count): count integers in [0, bound).
When the range is a single value numpy fills the output without consuming
the stream; otherwise it uses masked rejection sampling. -/
def randintFill (count bound : Nat) (st : MTState) : List Nat × MTState :=
  if bound - 1 = 0 then (List.replicate count 0, st)
  else randintLoop count (genMask (bound - 1)) (bound - 1) st

/-- Number of distinct values in a label list (length of np.unique). -/
def numUnique (l : List Bool) : Nat := l.dedup.length

/-- Contribution of one (positive, negative) score pair to the Mann-Whitney
statistic: 1 when the positive scores higher, one half on a tie. -/
def pairScore (p n : ℚ) : ℚ := if n < p then 1 else if p = n then 1 / 2 else 0

/-- Mann-Whitney statistic: sum of pair contributions. -/
def mwSum (pos neg : List ℚ) : ℚ :=
  (pos.map (fun p => (neg.map (fun n => pairScore p n)).sum)).sum

/-- Scores of the positively labelled observations, in order. -/
def posScores (y_true : List Bool) (y_score : List ℚ) : List ℚ :=
  ((y_true.zip y_score).filter (fun x => x.1)).map (fun x => x.2)

/-- Scores of the negatively labelled observations, in order. -/
def negScores (y_true : List Bool) (y_score : List ℚ) : List ℚ :=
  ((y_true.zip y_score).filter (fun x => !x.1)).map (fun x => x.2)

/-- sklearn.metrics.roc_auc_score: the rank-based AUC, with `none` standing
for the ValueError sklearn raises when the inputs differ in length or when
y_true holds fewer than two distinct classes. -/
def rocAucScore (y_true : List Bool) (y_score : List ℚ) : Option ℚ :=
  if y_true.length = y_score.length then
    if (posScores y_true y_score).isEmpty || (negScores y_true y_score).isEmpty then none
    else some (mwSum (posScores y_true y_score) (negScores y_true y_score)
      / (((posScores y_true y_score).length : ℚ) * ((negScores y_true y_score).length : ℚ)))
  else none

/-- numpy.sort: the ascending sorted permutation of the input. -/
def npSort (l : List ℚ) : List ℚ := l.insertionSort (· ≤ ·)

/-- Virtual (fractional) index of the q-th percentile in a sorted array of
length m: q/100 of the way through the m-1 gaps. -/
def pctlPos (m : Nat) (q : ℚ) : ℚ := q * ((m : ℚ) - 1) / 100

/-- Index of the order statistic at or below the virtual percentile index. -/
def pctlIdx (m : Nat) (q : ℚ) : Nat := (Int.floor (pctlPos m q)).toNat

/-- Index of the order statistic used as the upper interpolation endpoint. -/
def pctlIdxHi (m : Nat) (q : ℚ) : Nat := min (pctlIdx m q + 1) (m - 1)

/-- numpy.percentile with the default linear interpolation between order
statistics, `none` standing for the IndexError numpy raises on an empty
array. -/
def npPercentile (a : List ℚ) (q : ℚ) : Option ℚ :=
  if a.isEmpty then none
  else
    some (a.getD (pctlIdx a.length q) 0
      + (pctlPos a.length q - ((pctlIdx a.length q : Nat) : ℚ))
        * (a.getD (pctlIdxHi a.length q) 0 - a.getD (pctlIdx a.length q) 0))

end Np

namespace RocUtils

/-- Failure kinds of roc_auc_ci in roc_utils.py. `invalidInput` is the
ValueError propagated from sklearn's roc_auc_score on the full sample;
`insufficientBootstrapSamples` is the IndexError propagated from
np.percentile when the bootstrap distribution is empty. -/
inductive RocError
  | invalidInput
  | insufficientBootstrapSamples
deriving DecidableEq

/-- Result dictionary of roc_auc_ci: the AUC value and the CI triple. -/
structure RocResult where
  AUC : ℚ
  CI : ℚ × ℚ × ℚ
deriving DecidableEq

/-- Observable outcome of a call to roc_auc_ci: the Python None return (help
branch), the result dictionary, or a raised exception. -/
inductive RocOutcome
  | noneResult
  | ok (r : RocResult)
  | err (e : RocError)
deriving DecidableEq

/-- Observable side effects of a call: the only one in the source is the
printing of the docstring in the help branch. -/
inductive Effect
  | printDoc
deriving DecidableEq

/-- Indices drawn for one bootstrap resample: len(y_score) values drawn from
[0, len(y_score)). -/
def bootIndices (y_score : List ℚ) (st : Np.MTState) : List Nat :=
  (Np.randintFill y_score.length y_score.length st).1

/-- Fancy indexing y_true[indices]. -/
def resampleLabels (y_true : List Bool) (indices : List Nat) : List Bool :=
  indices.map (fun i => y_true.getD i false)

/-- Fancy indexing y_score[indices]. -/
def resampleScores (y_score : List ℚ) (indices : List Nat) : List ℚ :=
  indices.map (fun i => y_score.getD i 0)

/-- One iteration of the bootstrap loop: draw len(y_score) indices, skip the
iteration when the resampled labels hold fewer than two distinct classes,
otherwise produce the AUC of the resampled pairs. -/
def bootIter (y_true : List Bool) (y_score : List ℚ) (st : Np.MTState) :
    Option ℚ × Np.MTState :=
  (if Np.numUnique (resampleLabels y_true (bootIndices y_score st)) < 2 then none
   else Np.rocAucScore (resampleLabels y_true (bootIndices y_score st))
     (resampleScores y_score (bootIndices y_score st)),
   (Np.randintFill y_score.length y_score.length st).2)

/-- The bootstrap loop: n_bootstrap iterations threading the generator
state, collecting the accepted AUC values in iteration order. -/
def bootLoop (y_true : List Bool) (y_score : List ℚ) :
    Nat → Np.MTState → List ℚ × Np.MTState
  | 0, st => ([], st)
  | n + 1, st =>
    let o := bootIter y_true y_score st
    let rest := bootLoop y_true y_score n o.2
    (match o.1 with
     | some v => v :: rest.1
     | none => rest.1, rest.2)

/-- Bootstrap distribution of AUC values for the given inputs and seed. -/
def bootDist (y_true : List Bool) (y_score : List ℚ)
    (n_bootstrap random_state : Nat) : List ℚ :=
  (bootLoop y_true y_score n_bootstrap (Np.mtInit random_state)).1

/-- roc_auc_ci from roc_utils.py: point AUC by roc_auc_score, bootstrap
distribution by resampling with RandomState(random_state), CI bounds as the
2.5th and 97.5th percentiles of the sorted distribution. -/
def roc_auc_ci (y_true : List Bool) (y_score : List ℚ) (help : Bool)
    (n_bootstrap : Nat) (random_state : Nat) : RocOutcome × List Effect :=
  if help then (RocOutcome.noneResult, [Effect.printDoc])
  else
    match Np.rocAucScore y_true y_score with
    | none => (RocOutcome.err RocError.invalidInput, [])
    | some auc_val =>
      match Np.npPercentile
              (Np.npSort (bootDist y_true y_score n_bootstrap random_state)) (5 / 2),
            Np.npPercentile
              (Np.npSort (bootDist y_true y_score n_bootstrap random_state)) (195 / 2) with
      | some ci_lower, some ci_upper =>
        (RocOutcome.ok ⟨auc_val, (ci_lower, auc_val, ci_upper)⟩, [])
      | _, _ => (RocOutcome.err RocError.insufficientBootstrapSamples, [])

end RocUtils

namespace TestScript

/-- Q1 term of the Hanley-McNeil standard error. -/
def hanleyQ1 (AUC : ℚ) : ℚ := AUC / (2 - AUC)

/-- Q2 term of the Hanley-McNeil standard error. -/
def hanleyQ2 (AUC : ℚ) : ℚ := 2 * AUC ^ 2 / (1 + AUC)

/-- Expression under the square root in the Hanley-McNeil standard error of
test.py, for point estimate AUC and class counts N1 (positives) and N2
(negatives). -/
def varExpr (AUC : ℚ) (N1 N2 : Nat) : ℚ :=
  (AUC * (1 - AUC) + ((N1 : ℚ) - 1) * (hanleyQ1 AUC - AUC ^ 2)
    + ((N2 : ℚ) - 1) * (hanleyQ2 AUC - AUC ^ 2)) / ((N1 : ℚ) * (N2 : ℚ))

/-- Standard error SE_AUC of test.py, with math.sqrt idealised as the real
square root. -/
noncomputable def seAuc (AUC : ℚ) (N1 N2 : Nat) : ℝ :=
  Real.sqrt ((varExpr AUC N1 N2 : ℚ) : ℝ)

open Classical in
/-- Clamped 95% bounds of test.py: AUC ± 1.96 SE, with the lower bound
clamped at 0 and the upper bound clamped at 1. -/
noncomputable def clampedBounds (AUC : ℚ) (N1 N2 : Nat) : ℝ × ℝ :=
  (if (AUC : ℝ) - 196 / 100 * seAuc AUC N1 N2 < 0 then 0
   else (AUC : ℝ) - 196 / 100 * seAuc AUC N1 N2,
   if 1 < (AUC : ℝ) + 196 / 100 * seAuc AUC N1 N2 then 1
   else (AUC : ℝ) + 196 / 100 * seAuc AUC N1 N2)

/-- roc_auc_ci from test.py: analytic (Hanley-McNeil) confidence interval.
Returns ((lower, upper), SE); `none` stands for a raised exception
(ValueError from roc_auc_score, ZeroDivisionError when a class count is
zero, ValueError from math.sqrt on a negative radicand). -/
noncomputable def roc_auc_ci (y_true : List Bool) (y_score : List ℚ) :
    Option ((ℝ × ℝ) × ℝ) :=
  match Np.rocAucScore y_true y_score with
  | none => none
  | some AUC =>
    if y_true.count true = 0 ∨ y_true.count false = 0 then none
    else if varExpr AUC (y_true.count true) (y_true.count false) < 0 then none
    else some (clampedBounds AUC (y_true.count true) (y_true.count false),
      seAuc AUC (y_true.count true) (y_true.count false))

end TestScript

/-- A masked-rejection draw never exceeds the requested maximum. -/
theorem Np.boundedDraw_le (fuel mask rngMax : Nat) (st : Np.MTState) :
    (Np.boundedDraw fuel mask rngMax st).1 ≤ rngMax := by
  induction fuel generalizing st with
  | zero => simp [Np.boundedDraw]
  | succ f ih =>
    rw [Np.boundedDraw]
    split
    · simpa using ‹_›
    · exact ih _

/-- The draw loop produces exactly the requested number of values. -/
theorem Np.randintLoop_length (c mask rngMax : Nat) (st : Np.MTState) :
    (Np.randintLoop c mask rngMax st).1.length = c := by
  induction c generalizing st with
  | zero => simp [Np.randintLoop]
  | succ c ih => simp [Np.randintLoop, ih]

/-- Every value produced by the draw loop is at most the requested maximum. -/
theorem Np.randintLoop_mem_le {v : Nat} (c mask rngMax : Nat) (st : Np.MTState)
    (hv : v ∈ (Np.randintLoop c mask rngMax st).1) : v ≤ rngMax := by
  induction c generalizing st with
  | zero => simp [Np.randintLoop] at hv
  | succ c ih =>
    simp only [Np.randintLoop, List.mem_cons] at hv
    rcases hv with h | h
    · exact h ▸ Np.boundedDraw_le _ _ _ _
    · exact ih _ h

/-- randint produces exactly `count` values. -/
theorem Np.randintFill_length (count bound : Nat) (st : Np.MTState) :
    (Np.randintFill count bound st).1.length = count := by
  unfold Np.randintFill
  split
  · simp
  · exact Np.randintLoop_length _ _ _ _

/-- For a positive bound, every randint value lies in [0, bound). -/
theorem Np.randintFill_mem_lt {v : Nat} (count bound : Nat) (st : Np.MTState)
    (hb : 1 ≤ bound) (hv : v ∈ (Np.randintFill count bound st).1) : v < bound := by
  unfold Np.randintFill at hv
  split at hv
  · have := List.eq_of_mem_replicate hv
    omega
  · have := Np.randintLoop_mem_le _ _ _ _ hv
    omega

/-- Pair contributions to the Mann-Whitney statistic are nonnegative. -/
theorem Np.pairScore_nonneg (p n : ℚ) : 0 ≤ Np.pairScore p n := by
  unfold Np.pairScore
  split
  · norm_num
  · split <;> norm_num

/-- Pair contributions to the Mann-Whitney statistic are at most one. -/
theorem Np.pairScore_le_one (p n : ℚ) : Np.pairScore p n ≤ 1 := by
  unfold Np.pairScore
  split
  · norm_num
  · split <;> norm_num

/-- The inner sum of pair contributions is nonnegative. -/
theorem Np.innerSum_nonneg (p : ℚ) (neg : List ℚ) :
    0 ≤ (neg.map (fun n => Np.pairScore p n)).sum := by
  induction neg with
  | nil => simp
  | cons x xs ih =>
    simp only [List.map_cons, List.sum_cons]
    exact add_nonneg (Np.pairScore_nonneg p x) ih

/-- The inner sum of pair contributions is at most the number of negatives. -/
theorem Np.innerSum_le (p : ℚ) (neg : List ℚ) :
    (neg.map (fun n => Np.pairScore p n)).sum ≤ (neg.length : ℚ) := by
  induction neg with
  | nil => simp
  | cons x xs ih =>
    simp only [List.map_cons, List.sum_cons, List.length_cons]
    push_cast
    calc Np.pairScore p x + (xs.map (fun n => Np.pairScore p n)).sum
        ≤ 1 + (xs.length : ℚ) := add_le_add (Np.pairScore_le_one p x) ih
      _ = (xs.length : ℚ) + 1 := by ring

/-- The Mann-Whitney statistic is nonnegative. -/
theorem Np.mwSum_nonneg (pos neg : List ℚ) : 0 ≤ Np.mwSum pos neg := by
  unfold Np.mwSum
  induction pos with
  | nil => simp
  | cons x xs ih =>
    simp only [List.map_cons, List.sum_cons]
    exact add_nonneg (Np.innerSum_nonneg x neg) ih

/-- The Mann-Whitney statistic is at most the number of pairs. -/
theorem Np.mwSum_le (pos neg : List ℚ) :
    Np.mwSum pos neg ≤ (pos.length : ℚ) * (neg.length : ℚ) := by
  unfold Np.mwSum
  induction pos with
  | nil => simp
  | cons x xs ih =>
    simp only [List.map_cons, List.sum_cons, List.length_cons]
    push_cast
    calc (neg.map (fun n => Np.pairScore x n)).sum
          + (xs.map (fun p => (neg.map (fun n => Np.pairScore p n)).sum)).sum
        ≤ (neg.length : ℚ) + (xs.length : ℚ) * (neg.length : ℚ) :=
          add_le_add (Np.innerSum_le x neg) ih
      _ = ((xs.length : ℚ) + 1) * (neg.length : ℚ) := by ring

/-- A nonempty positive-score list means the label true occurs in y. -/
theorem Np.mem_true_of_posScores {y : List Bool} {s : List ℚ}
    (h : ¬(Np.posScores y s).isEmpty = true) : true ∈ y := by
  unfold Np.posScores at h
  rcases hx : (y.zip s).filter (fun x => x.1) with _ | ⟨x, xs⟩
  · rw [hx] at h
    simp at h
  · have hmem : x ∈ (y.zip s).filter (fun x => x.1) := by
      rw [hx]
      exact List.mem_cons_self _ _
    have hx1 : x.1 = true := by simpa using List.of_mem_filter hmem
    have hzip : (x.1, x.2) ∈ y.zip s := List.mem_of_mem_filter hmem
    have := (List.of_mem_zip hzip).1
    rwa [hx1] at this

/-- A nonempty negative-score list means the label false occurs in y. -/
theorem Np.mem_false_of_negScores {y : List Bool} {s : List ℚ}
    (h : ¬(Np.negScores y s).isEmpty = true) : false ∈ y := by
  unfold Np.negScores at h
  rcases hx : (y.zip s).filter (fun x => !x.1) with _ | ⟨x, xs⟩
  · rw [hx] at h
    simp at h
  · have hmem : x ∈ (y.zip s).filter (fun x => !x.1) := by
      rw [hx]
      exact List.mem_cons_self _ _
    have hx1 : x.1 = false := by simpa using List.of_mem_filter hmem
    have hzip : (x.1, x.2) ∈ y.zip s := List.mem_of_mem_filter hmem
    have := (List.of_mem_zip hzip).1
    rwa [hx1] at this

/-- A label list holding both classes has at least two distinct values. -/
theorem Np.two_le_numUnique {y : List Bool} (ht : true ∈ y) (hf : false ∈ y) :
    2 ≤ Np.numUnique y := by
  unfold Np.numUnique
  have ht' : true ∈ y.dedup := List.mem_dedup.mpr ht
  have hf' : false ∈ y.dedup := List.mem_dedup.mpr hf
  rcases hd : y.dedup with _ | ⟨x, _ | ⟨z, l⟩⟩
  · rw [hd] at ht'
    simp at ht'
  · rw [hd] at ht' hf'
    simp at ht' hf'
    rw [ht'] at hf'
    exact absurd hf' (by simp)
  · simp

/-- A defined rank-based AUC forces equal lengths, at least two samples, and
both classes present. -/
theorem Np.rocAucScore_some_shape {y : List Bool} {s : List ℚ} {a : ℚ}
    (h : Np.rocAucScore y s = some a) :
    y.length = s.length ∧ 2 ≤ Np.numUnique y ∧ 2 ≤ y.length := by
  unfold Np.rocAucScore at h
  split at h
  case isTrue hlen =>
    split at h
    · exact absurd h (by simp)
    case isFalse hne =>
      rw [Bool.or_eq_true, not_or] at hne
      have h2 := Np.two_le_numUnique (Np.mem_true_of_posScores hne.1)
        (Np.mem_false_of_negScores hne.2)
      refine ⟨hlen, h2, le_trans h2 ?_⟩
      exact le_trans (Np.numUnique y).le_refl
        ((List.dedup_sublist y).length_le)
  case isFalse => exact absurd h (by simp)

/-- The percentile of a one-element list is that element, for any q. -/
theorem Np.npPercentile_single (v q : ℚ) : Np.npPercentile [v] q = some v := by
  unfold Np.npPercentile Np.pctlIdxHi Np.pctlIdx Np.pctlPos
  norm_num

/-- The percentile is undefined exactly on the empty list. -/
theorem Np.npPercentile_none_iff (a : List ℚ) (q : ℚ) :
    Np.npPercentile a q = none ↔ a = [] := by
  unfold Np.npPercentile
  split
  case isTrue he => simp [List.isEmpty_iff.mp he]
  case isFalse he =>
    simp only [reduceCtorEq, false_iff]
    intro hnil
    subst hnil
    simp_all

/-- A list element accessed with default 0 is a member or the default. -/
theorem Np.getD_mem_or (a : List ℚ) (i : Nat) : a.getD i 0 ∈ a ∨ a.getD i 0 = 0 := by
  by_cases hi : i < a.length
  · left
    rw [List.getD_eq_getElem _ _ hi]
    exact List.getElem_mem _
  · right
    exact List.getD_eq_default _ _ (by omega)

/-- The virtual percentile index is nonnegative for nonnegative q. -/
theorem Np.pctlPos_nonneg {m : Nat} {q : ℚ} (hm : 1 ≤ m) (hq : 0 ≤ q) :
    0 ≤ Np.pctlPos m q := by
  unfold Np.pctlPos
  have h1 : (1 : ℚ) ≤ (m : ℚ) := by exact_mod_cast hm
  have h2 : (0 : ℚ) ≤ (m : ℚ) - 1 := by linarith
  exact div_nonneg (mul_nonneg hq h2) (by norm_num)

/-- Cast of the percentile order-statistic index back to ℚ is the floor. -/
theorem Np.pctlIdx_cast {m : Nat} {q : ℚ} (hm : 1 ≤ m) (hq : 0 ≤ q) :
    ((Np.pctlIdx m q : Nat) : ℚ) = ((Int.floor (Np.pctlPos m q) : ℤ) : ℚ) := by
  unfold Np.pctlIdx
  have h1 : ((Int.floor (Np.pctlPos m q)).toNat : ℤ) = Int.floor (Np.pctlPos m q) :=
    Int.toNat_of_nonneg (Int.floor_nonneg.mpr (Np.pctlPos_nonneg hm hq))
  exact_mod_cast congrArg (fun z : ℤ => (z : ℚ)) h1

/-- The interpolation fraction is nonnegative. -/
theorem Np.pctlFrac_nonneg {m : Nat} {q : ℚ} (hm : 1 ≤ m) (hq : 0 ≤ q) :
    0 ≤ Np.pctlPos m q - ((Np.pctlIdx m q : Nat) : ℚ) := by
  rw [Np.pctlIdx_cast hm hq]
  exact sub_nonneg.mpr (Int.floor_le _)

/-- The interpolation fraction is at most one. -/
theorem Np.pctlFrac_le_one {m : Nat} {q : ℚ} (hm : 1 ≤ m) (hq : 0 ≤ q) :
    Np.pctlPos m q - ((Np.pctlIdx m q : Nat) : ℚ) ≤ 1 := by
  rw [Np.pctlIdx_cast hm hq]
  have := Int.lt_floor_add_one (Np.pctlPos m q)
  linarith

/-- For q at most 100 the order-statistic index stays in range. -/
theorem Np.pctlIdx_le {m : Nat} {q : ℚ} (hm : 1 ≤ m) (hq : q ≤ 100) :
    Np.pctlIdx m q ≤ m - 1 := by
  have h1 : (1 : ℚ) ≤ (m : ℚ) := by exact_mod_cast hm
  have h2 : (0 : ℚ) ≤ (m : ℚ) - 1 := by linarith
  have hH : Np.pctlPos m q ≤ (m : ℚ) - 1 := by
    unfold Np.pctlPos
    rw [div_le_iff₀ (by norm_num : (0 : ℚ) < 100)]
    nlinarith
  have hcast : ((m - 1 : Nat) : ℚ) = (m : ℚ) - 1 := by
    push_cast [Nat.cast_sub hm]
    ring
  have hfl : Int.floor (Np.pctlPos m q) ≤ ((m - 1 : Nat) : ℤ) := by
    have := Int.floor_mono (le_of_le_of_eq hH hcast.symm)
    rwa [Int.floor_natCast] at this
  unfold Np.pctlIdx
  have := Int.toNat_le_toNat hfl
  rwa [Int.toNat_natCast] at this

/-- Percentiles of a list of values in [0, 1] stay in [0, 1]. -/
theorem Np.npPercentile_bounds {a : List ℚ} {q v : ℚ} (hq : 0 ≤ q)
    (helems : ∀ x ∈ a, 0 ≤ x ∧ x ≤ 1) (h : Np.npPercentile a q = some v) :
    0 ≤ v ∧ v ≤ 1 := by
  unfold Np.npPercentile at h
  split at h
  · exact absurd h (by simp)
  case isFalse hne =>
    have hm : 1 ≤ a.length := by
      cases a with
      | nil => simp at hne
      | cons _ _ => simp [Nat.succ_le]
    have hv : v = a.getD (Np.pctlIdx a.length q) 0
        + (Np.pctlPos a.length q - ((Np.pctlIdx a.length q : Nat) : ℚ))
          * (a.getD (Np.pctlIdxHi a.length q) 0 - a.getD (Np.pctlIdx a.length q) 0) :=
      (Option.some.inj h).symm
    have hlo : 0 ≤ a.getD (Np.pctlIdx a.length q) 0 ∧ a.getD (Np.pctlIdx a.length q) 0 ≤ 1 := by
      rcases Np.getD_mem_or a (Np.pctlIdx a.length q) with hmem | hz
      · exact helems _ hmem
      · rw [hz]
        norm_num
    have hhi : 0 ≤ a.getD (Np.pctlIdxHi a.length q) 0 ∧ a.getD (Np.pctlIdxHi a.length q) 0 ≤ 1 := by
      rcases Np.getD_mem_or a (Np.pctlIdxHi a.length q) with hmem | hz
      · exact helems _ hmem
      · rw [hz]
        norm_num
    have hf0 := Np.pctlFrac_nonneg hm hq
    have hf1 := Np.pctlFrac_le_one hm hq
    constructor
    · nlinarith [hlo.1, hlo.2, hhi.1, hhi.2]
    · nlinarith [hlo.1, hlo.2, hhi.1, hhi.2]

/-- In a sorted list, default-0 access is monotone within range. -/
theorem Np.sorted_getD_mono {a : List ℚ} (hs : List.Sorted (fun x y => x ≤ y) a)
    {p r : Nat} (hpr : p ≤ r) (hr : r < a.length) : a.getD p 0 ≤ a.getD r 0 := by
  rcases Nat.lt_or_ge p r with hlt | hge
  · have hp : p < a.length := lt_trans hlt hr
    rw [List.getD_eq_getElem _ _ hp, List.getD_eq_getElem _ _ hr]
    exact List.pairwise_iff_getElem.mp hs p r hp hr hlt
  · have heq : p = r := le_antisymm hpr hge
    rw [heq]

/-- Percentile with linear interpolation is monotone in q on a sorted
list. -/
theorem Np.npPercentile_mono {a : List ℚ} {q₁ q₂ v₁ v₂ : ℚ}
    (hs : List.Sorted (fun x y => x ≤ y) a) (hq0 : 0 ≤ q₁) (hq12 : q₁ ≤ q₂)
    (hq100 : q₂ ≤ 100) (h1 : Np.npPercentile a q₁ = some v₁)
    (h2 : Np.npPercentile a q₂ = some v₂) : v₁ ≤ v₂ := by
  have hq20 : 0 ≤ q₂ := le_trans hq0 hq12
  unfold Np.npPercentile at h1 h2
  split at h1
  · exact absurd h1 (by simp)
  case isFalse hne =>
    split at h2
    · exact absurd h2 (by simp)
    have hm : 1 ≤ a.length := by
      cases a with
      | nil => simp at hne
      | cons _ _ => simp [Nat.succ_le]
    have h1m : (1 : ℚ) ≤ (a.length : ℚ) := by exact_mod_cast hm
    have hi12 : Np.pctlIdx a.length q₁ ≤ Np.pctlIdx a.length q₂ := by
      unfold Np.pctlIdx
      apply Int.toNat_le_toNat
      apply Int.floor_mono
      unfold Np.pctlPos
      have := mul_le_mul_of_nonneg_right hq12 (by linarith : (0 : ℚ) ≤ (a.length : ℚ) - 1)
      linarith
    have hi2m : Np.pctlIdx a.length q₂ ≤ a.length - 1 := Np.pctlIdx_le hm hq100
    have hi1m : Np.pctlIdx a.length q₁ ≤ a.length - 1 := le_trans hi12 hi2m
    have hj1 : Np.pctlIdxHi a.length q₁ < a.length := by
      unfold Np.pctlIdxHi
      omega
    have hj2 : Np.pctlIdxHi a.length q₂ < a.length := by
      unfold Np.pctlIdxHi
      omega
    have hij1 : Np.pctlIdx a.length q₁ ≤ Np.pctlIdxHi a.length q₁ := by
      unfold Np.pctlIdxHi
      omega
    have hij2 : Np.pctlIdx a.length q₂ ≤ Np.pctlIdxHi a.length q₂ := by
      unfold Np.pctlIdxHi
      omega
    have hlohi1 : a.getD (Np.pctlIdx a.length q₁) 0 ≤ a.getD (Np.pctlIdxHi a.length q₁) 0 :=
      Np.sorted_getD_mono hs hij1 hj1
    have hlohi2 : a.getD (Np.pctlIdx a.length q₂) 0 ≤ a.getD (Np.pctlIdxHi a.length q₂) 0 :=
      Np.sorted_getD_mono hs hij2 hj2
    have hf10 := Np.pctlFrac_nonneg hm hq0
    have hf11 := Np.pctlFrac_le_one hm hq0
    have hf20 := Np.pctlFrac_nonneg hm hq20
    have hv1 : v₁ = a.getD (Np.pctlIdx a.length q₁) 0
        + (Np.pctlPos a.length q₁ - ((Np.pctlIdx a.length q₁ : Nat) : ℚ))
          * (a.getD (Np.pctlIdxHi a.length q₁) 0 - a.getD (Np.pctlIdx a.length q₁) 0) :=
      (Option.some.inj h1).symm
    have hv2 : v₂ = a.getD (Np.pctlIdx a.length q₂) 0
        + (Np.pctlPos a.length q₂ - ((Np.pctlIdx a.length q₂ : Nat) : ℚ))
          * (a.getD (Np.pctlIdxHi a.length q₂) 0 - a.getD (Np.pctlIdx a.length q₂) 0) :=
      (Option.some.inj h2).symm
    rcases Nat.lt_or_ge (Np.pctlIdx a.length q₁) (Np.pctlIdx a.length q₂) with hii | hii
    · have hup : v₁ ≤ a.getD (Np.pctlIdxHi a.length q₁) 0 := by
        nlinarith [hlohi1]
      have hmid : a.getD (Np.pctlIdxHi a.length q₁) 0 ≤ a.getD (Np.pctlIdx a.length q₂) 0 := by
        apply Np.sorted_getD_mono hs ?_ (by omega)
        unfold Np.pctlIdxHi
        omega
      have hdown : a.getD (Np.pctlIdx a.length q₂) 0 ≤ v₂ := by
        nlinarith [hlohi2]
      linarith
    · have heq : Np.pctlIdx a.length q₁ = Np.pctlIdx a.length q₂ :=
        le_antisymm hi12 hii
      have hH12 : Np.pctlPos a.length q₁ ≤ Np.pctlPos a.length q₂ := by
        unfold Np.pctlPos
        have := mul_le_mul_of_nonneg_right hq12 (by linarith : (0 : ℚ) ≤ (a.length : ℚ) - 1)
        linarith
      rw [hv1, hv2, ← heq]
      have hd : 0 ≤ a.getD (Np.pctlIdxHi a.length q₁) 0 - a.getD (Np.pctlIdx a.length q₁) 0 := by
        linarith
      have hidxhi : Np.pctlIdxHi a.length q₁ = Np.pctlIdxHi a.length q₂ := by
        unfold Np.pctlIdxHi
        rw [heq]
      rw [← hidxhi] at *
      apply add_le_add_left
      apply mul_le_mul_of_nonneg_right _ hd
      linarith

/-- npSort sorts ascending. -/
theorem Np.npSort_sorted (l : List ℚ) : List.Sorted (fun x y => x ≤ y) (Np.npSort l) :=
  List.sorted_insertionSort _ _

/-- npSort permutes its input. -/
theorem Np.npSort_perm (l : List ℚ) : (Np.npSort l).Perm l :=
  List.perm_insertionSort _ _

/-- npSort is empty exactly on the empty input. -/
theorem Np.npSort_eq_nil_iff (l : List ℚ) : Np.npSort l = [] ↔ l = [] := by
  constructor
  · intro h
    have hp := Np.npSort_perm l
    rw [h] at hp
    exact hp.symm.eq_nil
  · intro h
    rw [h]
    rfl

/-- A defined rank-based AUC lies in [0, 1]. -/
theorem Np.rocAucScore_bounds {y : List Bool} {s : List ℚ} {a : ℚ}
    (h : Np.rocAucScore y s = some a) : 0 ≤ a ∧ a ≤ 1 := by
  unfold Np.rocAucScore at h
  split at h
  · split at h
    · exact absurd h (by simp)
    · have hne := ‹¬((Np.posScores y s).isEmpty || (Np.negScores y s).isEmpty) = true›
      rw [Bool.or_eq_true, not_or] at hne
      have hP : 0 < (Np.posScores y s).length := by
        cases hp : Np.posScores y s with
        | nil => rw [hp] at hne; simp at hne
        | cons _ _ => simp
      have hN : 0 < (Np.negScores y s).length := by
        cases hp : Np.negScores y s with
        | nil => rw [hp] at hne; simp at hne
        | cons _ _ => simp
      have hval : a = Np.mwSum (Np.posScores y s) (Np.negScores y s)
          / (((Np.posScores y s).length : ℚ) * ((Np.negScores y s).length : ℚ)) :=
        (Option.some.inj h).symm
      have hden : (0 : ℚ) < ((Np.posScores y s).length : ℚ) * ((Np.negScores y s).length : ℚ) := by
        have h1 : (0 : ℚ) < ((Np.posScores y s).length : ℚ) := by exact_mod_cast hP
        have h2 : (0 : ℚ) < ((Np.negScores y s).length : ℚ) := by exact_mod_cast hN
        positivity
      constructor
      · rw [hval]
        exact div_nonneg (Np.mwSum_nonneg _ _) (le_of_lt hden)
      · rw [hval, div_le_one hden]
        exact Np.mwSum_le _ _
  · exact absurd h (by simp)

/-- The bootstrap distribution never exceeds n_bootstrap samples. -/
theorem RocUtils.bootLoop_length_le (y : List Bool) (s : List ℚ) (n : Nat)
    (st : Np.MTState) : (RocUtils.bootLoop y s n st).1.length ≤ n := by
  induction n generalizing st with
  | zero => simp [RocUtils.bootLoop]
  | succ n ih =>
    simp only [RocUtils.bootLoop]
    cases h : (RocUtils.bootIter y s st).1 with
    | none =>
      simp only [h]
      exact le_trans (ih _) (Nat.le_succ n)
    | some v =>
      simp only [h, List.length_cons]
      exact Nat.succ_le_succ (ih _)

/-- Every bootstrap sample comes from an accepted iteration. -/
theorem RocUtils.bootLoop_mem {y : List Bool} {s : List ℚ} {n : Nat}
    {st : Np.MTState} {v : ℚ} (hv : v ∈ (RocUtils.bootLoop y s n st).1) :
    ∃ st0, (RocUtils.bootIter y s st0).1 = some v := by
  induction n generalizing st with
  | zero => simp [RocUtils.bootLoop] at hv
  | succ n ih =>
    simp only [RocUtils.bootLoop] at hv
    cases h : (RocUtils.bootIter y s st).1 with
    | none =>
      rw [h] at hv
      exact ih hv
    | some w =>
      rw [h] at hv
      simp only [List.mem_cons] at hv
      rcases hv with hv | hv
      · exact ⟨st, by rw [h, hv]⟩
      · exact ih hv

/-- An accepted iteration has a two-class resample and yields its AUC. -/
theorem RocUtils.bootIter_some {y : List Bool} {s : List ℚ} {st : Np.MTState}
    {v : ℚ} (h : (RocUtils.bootIter y s st).1 = some v) :
    2 ≤ Np.numUnique (RocUtils.resampleLabels y (RocUtils.bootIndices s st)) ∧
    Np.rocAucScore (RocUtils.resampleLabels y (RocUtils.bootIndices s st))
      (RocUtils.resampleScores s (RocUtils.bootIndices s st)) = some v := by
  unfold RocUtils.bootIter at h
  simp only at h
  split at h
  · exact absurd h (by simp)
  · exact ⟨by omega, h⟩

/-- Every value in the bootstrap distribution is an AUC, hence in [0, 1]. -/
theorem RocUtils.bootDist_mem_bounds {y : List Bool} {s : List ℚ}
    {n seed : Nat} {v : ℚ} (hv : v ∈ RocUtils.bootDist y s n seed) :
    0 ≤ v ∧ v ≤ 1 := by
  obtain ⟨st0, h⟩ := RocUtils.bootLoop_mem hv
  exact Np.rocAucScore_bounds (RocUtils.bootIter_some h).2

/-- On an invalid full sample, roc_auc_ci raises the sklearn error. -/
theorem RocUtils.roc_auc_ci_invalid {y : List Bool} {s : List ℚ} {n seed : Nat}
    (h : Np.rocAucScore y s = none) :
    (RocUtils.roc_auc_ci y s false n seed).1
      = RocUtils.RocOutcome.err RocUtils.RocError.invalidInput := by
  unfold RocUtils.roc_auc_ci
  simp [h]

/-- On a valid sample with an empty bootstrap distribution, roc_auc_ci
raises the percentile error. -/
theorem RocUtils.roc_auc_ci_insufficient {y : List Bool} {s : List ℚ}
    {n seed : Nat} {a : ℚ} (ha : Np.rocAucScore y s = some a)
    (hb : RocUtils.bootDist y s n seed = []) :
    (RocUtils.roc_auc_ci y s false n seed).1
      = RocUtils.RocOutcome.err RocUtils.RocError.insufficientBootstrapSamples := by
  unfold RocUtils.roc_auc_ci
  have hsort : Np.npSort (RocUtils.bootDist y s n seed) = [] := by
    rw [hb]
    rfl
  have hp : ∀ q : ℚ, Np.npPercentile (Np.npSort (RocUtils.bootDist y s n seed)) q = none := by
    intro q
    rw [hsort]
    simp [Np.npPercentile]
  simp [ha, hp]

/-- Anatomy of a successful run: the AUC field is the full-sample rank AUC,
the CI bounds are the percentiles of the sorted bootstrap distribution, and
the middle CI component is the AUC itself. -/
theorem RocUtils.roc_auc_ci_ok {y : List Bool} {s : List ℚ} {n seed : Nat}
    {r : RocUtils.RocResult}
    (h : (RocUtils.roc_auc_ci y s false n seed).1 = RocUtils.RocOutcome.ok r) :
    Np.rocAucScore y s = some r.AUC ∧
    Np.npPercentile (Np.npSort (RocUtils.bootDist y s n seed)) (5 / 2) = some r.CI.1 ∧
    Np.npPercentile (Np.npSort (RocUtils.bootDist y s n seed)) (195 / 2) = some r.CI.2.2 ∧
    r.CI.2.1 = r.AUC := by
  unfold RocUtils.roc_auc_ci at h
  simp only [Bool.false_eq_true, if_false] at h
  cases hsc : Np.rocAucScore y s with
  | none =>
    rw [hsc] at h
    simp at h
  | some a =>
    rw [hsc] at h
    cases hp1 : Np.npPercentile (Np.npSort (RocUtils.bootDist y s n seed)) (5 / 2) with
    | none =>
      rw [hp1] at h
      simp at h
    | some lo =>
      rw [hp1] at h
      cases hp2 : Np.npPercentile (Np.npSort (RocUtils.bootDist y s n seed)) (195 / 2) with
      | none =>
        rw [hp2] at h
        simp at h
      | some hi =>
        rw [hp2] at h
        simp only [RocUtils.RocOutcome.ok.injEq] at h
        rw [← h]
        exact ⟨rfl, rfl, rfl, rfl⟩

/-- A nonempty bootstrap distribution yields a successful run with the
percentile bounds. -/
theorem RocUtils.roc_auc_ci_ok_of_nonempty {y : List Bool} {s : List ℚ}
    {n seed : Nat} {a : ℚ} (ha : Np.rocAucScore y s = some a)
    (hb : RocUtils.bootDist y s n seed ≠ []) :
    ∃ lo hi,
      Np.npPercentile (Np.npSort (RocUtils.bootDist y s n seed)) (5 / 2) = some lo ∧
      Np.npPercentile (Np.npSort (RocUtils.bootDist y s n seed)) (195 / 2) = some hi ∧
      (RocUtils.roc_auc_ci y s false n seed).1
        = RocUtils.RocOutcome.ok ⟨a, (lo, a, hi)⟩ := by
  have hsort : Np.npSort (RocUtils.bootDist y s n seed) ≠ [] := by
    intro hc
    exact hb ((Np.npSort_eq_nil_iff _).mp hc)
  cases hp1 : Np.npPercentile (Np.npSort (RocUtils.bootDist y s n seed)) (5 / 2) with
  | none => exact absurd ((Np.npPercentile_none_iff _ _).mp hp1) hsort
  | some lo =>
    cases hp2 : Np.npPercentile (Np.npSort (RocUtils.bootDist y s n seed)) (195 / 2) with
    | none => exact absurd ((Np.npPercentile_none_iff _ _).mp hp2) hsort
    | some hi =>
      refine ⟨lo, hi, rfl, rfl, ?_⟩
      unfold RocUtils.roc_auc_ci
      simp [ha, hp1, hp2]

/-- A non-help run prints nothing. -/
theorem RocUtils.roc_auc_ci_effects (y : List Bool) (s : List ℚ) (n seed : Nat) :
    (RocUtils.roc_auc_ci y s false n seed).2 = [] := by
  unfold RocUtils.roc_auc_ci
  simp only [Bool.false_eq_true, if_false]
  cases Np.rocAucScore y s with
  | none => rfl
  | some a =>
    cases Np.npPercentile (Np.npSort (RocUtils.bootDist y s n seed)) (5 / 2) with
    | none =>
      cases Np.npPercentile (Np.npSort (RocUtils.bootDist y s n seed)) (195 / 2) <;> rfl
    | some lo =>
      cases Np.npPercentile (Np.npSort (RocUtils.bootDist y s n seed)) (195 / 2) <;> rfl

/-- Rank AUC of the toy dataset of the spec: perfect separation. -/
theorem Np.toyAuc :
    Np.rocAucScore [false, true, true, false] [2/10, 8/10, 7/10, 3/10] = some 1 := by
  norm_num [Np.rocAucScore, Np.posScores, Np.negScores, Np.mwSum, Np.pairScore, List.filter]

/-- Rank AUC of the two-point dataset used for the degenerate-bootstrap
runs. -/
theorem Np.pairAuc : Np.rocAucScore [false, true] [1/10, 9/10] = some 1 := by
  norm_num [Np.rocAucScore, Np.posScores, Np.negScores, Np.mwSum, Np.pairScore, List.filter]

/-- Rank AUC of the three-point dataset whose bootstrap CI misses the point
estimate. -/
theorem Np.triAuc : Np.rocAucScore [false, true, true] [1/2, 2/5, 9/10] = some (1/2) := by
  norm_num [Np.rocAucScore, Np.posScores, Np.negScores, Np.mwSum, Np.pairScore, List.filter]

/-- Rank AUC of the seed-0 resample of the three-point dataset. -/
theorem Np.triIterAuc : Np.rocAucScore [false, true, false] [1/2, 2/5, 1/2] = some 0 := by
  norm_num [Np.rocAucScore, Np.posScores, Np.negScores, Np.mwSum, Np.pairScore, List.filter]

/-- Rank AUC of the seed-42 resample of the toy dataset. -/
theorem Np.toyIterAuc :
    Np.rocAucScore [true, false, false, true] [7/10, 3/10, 1/5, 7/10] = some 1 := by
  norm_num [Np.rocAucScore, Np.posScores, Np.negScores, Np.mwSum, Np.pairScore, List.filter]

set_option maxRecDepth 20000 in
/-- With seed 1 and one bootstrap round on two samples, the only resample
repeats one index, so the bootstrap distribution is empty. -/
theorem RocUtils.pairBootEmpty : RocUtils.bootDist [false, true] [1/10, 9/10] 1 1 = [] := by
  decide

set_option maxRecDepth 20000 in
/-- With seed 0 and one round on the three-point dataset, the resample keeps
both classes and scores AUC 0. -/
theorem RocUtils.triBoot :
    RocUtils.bootDist [false, true, true] [1/2, 2/5, 9/10] 1 0 = [0] := by
  have hix : (Np.randintFill 3 3 (Np.mtInit 0)).1 = [0, 1, 0] := by decide
  simp only [RocUtils.bootDist, RocUtils.bootLoop, RocUtils.bootIter, RocUtils.bootIndices,
    RocUtils.resampleLabels, RocUtils.resampleScores, List.length_cons, List.length_nil]
  norm_num [hix, Np.triIterAuc, Np.numUnique]

set_option maxRecDepth 20000 in
/-- With seed 42 and one round on the toy dataset, the resample keeps both
classes and scores AUC 1. -/
theorem RocUtils.toyBoot :
    RocUtils.bootDist [false, true, true, false] [2/10, 8/10, 7/10, 3/10] 1 42 = [1] := by
  have hix : (Np.randintFill 4 4 (Np.mtInit 42)).1 = [2, 3, 0, 2] := by decide
  simp only [RocUtils.bootDist, RocUtils.bootLoop, RocUtils.bootIter, RocUtils.bootIndices,
    RocUtils.resampleLabels, RocUtils.resampleScores, List.length_cons, List.length_nil]
  norm_num [hix, Np.toyIterAuc, Np.numUnique]

/-- Outcome of the toy run: point AUC 1 with confidence triple (1, 1, 1). -/
theorem RocUtils.toyRun :
    (RocUtils.roc_auc_ci [false, true, true, false] [2/10, 8/10, 7/10, 3/10] false 1 42).1
      = RocUtils.RocOutcome.ok ⟨1, (1, 1, 1)⟩ := by
  obtain ⟨lo, hi, hp1, hp2, hrun⟩ :=
    RocUtils.roc_auc_ci_ok_of_nonempty Np.toyAuc (by rw [RocUtils.toyBoot]; simp)
  rw [RocUtils.toyBoot] at hp1 hp2
  have h1 : Np.npSort [(1 : ℚ)] = [1] := rfl
  rw [h1, Np.npPercentile_single] at hp1 hp2
  have hlo : lo = 1 := (Option.some.inj hp1).symm
  have hhi : hi = 1 := (Option.some.inj hp2).symm
  rw [hlo, hhi] at hrun
  exact hrun

/-- Outcome of the seed-0 run on the three-point dataset: point AUC one half
with confidence triple (0, one half, 0). -/
theorem RocUtils.triRun :
    (RocUtils.roc_auc_ci [false, true, true] [1/2, 2/5, 9/10] false 1 0).1
      = RocUtils.RocOutcome.ok ⟨1/2, (0, 1/2, 0)⟩ := by
  obtain ⟨lo, hi, hp1, hp2, hrun⟩ :=
    RocUtils.roc_auc_ci_ok_of_nonempty Np.triAuc (by rw [RocUtils.triBoot]; simp)
  rw [RocUtils.triBoot] at hp1 hp2
  have h1 : Np.npSort [(0 : ℚ)] = [0] := rfl
  rw [h1, Np.npPercentile_single] at hp1 hp2
  have hlo : lo = 0 := (Option.some.inj hp1).symm
  have hhi : hi = 0 := (Option.some.inj hp2).symm
  rw [hlo, hhi] at hrun
  exact hrun

/-- Rank AUC of the two-point dataset used as the analytic-CI witness. -/
theorem Np.testAuc : Np.rocAucScore [true, false] [9/10, 1/10] = some 1 := by
  norm_num [Np.rocAucScore, Np.posScores, Np.negScores, Np.mwSum, Np.pairScore, List.filter]

/-- The variance expression vanishes at AUC 1 with one sample per class. -/
theorem TestScript.varExprOne : TestScript.varExpr 1 1 1 = 0 := by
  norm_num [TestScript.varExpr, TestScript.hanleyQ1, TestScript.hanleyQ2]

/-- The standard error vanishes at AUC 1 with one sample per class. -/
theorem TestScript.seAucOne : TestScript.seAuc 1 1 1 = 0 := by
  rw [TestScript.seAuc, TestScript.varExprOne]
  norm_num

/-- Concrete run of the analytic CI: AUC 1, interval (1, 1), SE 0. -/
theorem TestScript.testRun :
    TestScript.roc_auc_ci [true, false] [9/10, 1/10] = some ((1, 1), 0) := by
  unfold TestScript.roc_auc_ci
  rw [Np.testAuc]
  have hc1 : List.count true [true, false] = 1 := by decide
  have hc2 : List.count false [true, false] = 1 := by decide
  rw [hc1, hc2]
  norm_num [TestScript.varExprOne, TestScript.clampedBounds, TestScript.seAucOne]

/-- C1: the claim fails as stated: the input below is valid (equal lengths,
N = 2, both classes present, positive bootstrap count), yet with seed 1 the
estimator raises instead of returning a result, because its only resample is
single-class and the bootstrap distribution is empty. -/
theorem C1_counterexample :
    ([false, true] : List Bool).length = ([1/10, 9/10] : List ℚ).length ∧
    2 ≤ ([false, true] : List Bool).length ∧
    2 ≤ Np.numUnique [false, true] ∧
    0 < 1 ∧
    (RocUtils.roc_auc_ci [false, true] [1/10, 9/10] false 1 1).1
      = RocUtils.RocOutcome.err RocUtils.RocError.insufficientBootstrapSamples :=
  ⟨by decide, by decide, by decide, by decide,
    RocUtils.roc_auc_ci_insufficient Np.pairAuc RocUtils.pairBootEmpty⟩

/-- C1 (amended): whenever the estimator does return a result, the result
carries the rank-based point AUC of the full sample, and the middle element
of the confidence triple equals that AUC exactly. -/
theorem C1_ok_components (y : List Bool) (s : List ℚ) (n seed : Nat)
    (r : RocUtils.RocResult)
    (h : (RocUtils.roc_auc_ci y s false n seed).1 = RocUtils.RocOutcome.ok r) :
    Np.rocAucScore y s = some r.AUC ∧ r.CI.2.1 = r.AUC :=
  ⟨(RocUtils.roc_auc_ci_ok h).1, (RocUtils.roc_auc_ci_ok h).2.2.2⟩

/-- C1 witness: the toy run returns, and its result satisfies the amended
claim. -/
theorem C1_ok_components_witness :
    (RocUtils.roc_auc_ci [false, true, true, false] [2/10, 8/10, 7/10, 3/10] false 1 42).1
      = RocUtils.RocOutcome.ok ⟨1, (1, 1, 1)⟩ ∧
    Np.rocAucScore [false, true, true, false] [2/10, 8/10, 7/10, 3/10]
      = some (RocUtils.RocResult.mk 1 (1, 1, 1)).AUC ∧
    (RocUtils.RocResult.mk 1 (1, 1, 1)).CI.2.1 = (RocUtils.RocResult.mk 1 (1, 1, 1)).AUC :=
  ⟨RocUtils.toyRun,
    (C1_ok_components _ _ _ _ _ RocUtils.toyRun).1,
    (C1_ok_components _ _ _ _ _ RocUtils.toyRun).2⟩

/-- C2: the chain lower ≤ auc ≤ upper fails on the code: with seed 0 and one
bootstrap round on this valid dataset the run succeeds with point AUC one
half but confidence bounds (0, 0), so auc exceeds the upper bound. -/
theorem C2_counterexample :
    (RocUtils.roc_auc_ci [false, true, true] [1/2, 2/5, 9/10] false 1 0).1
      = RocUtils.RocOutcome.ok ⟨1/2, (0, 1/2, 0)⟩ ∧
    ¬((1 : ℚ)/2 ≤ 0) :=
  ⟨RocUtils.triRun, by norm_num⟩

/-- C2 (amended): every returned result satisfies 0 ≤ lower ≤ upper ≤ 1 and
0 ≤ auc ≤ 1, with the middle triple component equal to auc; the point
estimate however need not lie between the bootstrap percentile bounds. -/
theorem C2_ci_bounds (y : List Bool) (s : List ℚ) (n seed : Nat)
    (r : RocUtils.RocResult)
    (h : (RocUtils.roc_auc_ci y s false n seed).1 = RocUtils.RocOutcome.ok r) :
    0 ≤ r.CI.1 ∧ r.CI.1 ≤ r.CI.2.2 ∧ r.CI.2.2 ≤ 1 ∧
    0 ≤ r.AUC ∧ r.AUC ≤ 1 ∧ r.CI.2.1 = r.AUC := by
  obtain ⟨hauc, hp1, hp2, hmid⟩ := RocUtils.roc_auc_ci_ok h
  have helems : ∀ x ∈ Np.npSort (RocUtils.bootDist y s n seed), 0 ≤ x ∧ x ≤ 1 := by
    intro x hx
    exact RocUtils.bootDist_mem_bounds ((Np.npSort_perm _).mem_iff.mp hx)
  have hlo := Np.npPercentile_bounds (by norm_num) helems hp1
  have hhi := Np.npPercentile_bounds (by norm_num) helems hp2
  have hmono := Np.npPercentile_mono (Np.npSort_sorted _) (by norm_num)
    (by norm_num) (by norm_num) hp1 hp2
  have hab := Np.rocAucScore_bounds hauc
  exact ⟨hlo.1, hmono, hhi.2, hab.1, hab.2, hmid⟩

/-- C2 witness: the toy run satisfies the amended bounds. -/
theorem C2_ci_bounds_witness :
    (RocUtils.roc_auc_ci [false, true, true, false] [2/10, 8/10, 7/10, 3/10] false 1 42).1
      = RocUtils.RocOutcome.ok ⟨1, (1, 1, 1)⟩ ∧
    (0 ≤ (RocUtils.RocResult.mk 1 (1, 1, 1)).CI.1 ∧
      (RocUtils.RocResult.mk 1 (1, 1, 1)).CI.1 ≤ (RocUtils.RocResult.mk 1 (1, 1, 1)).CI.2.2 ∧
      (RocUtils.RocResult.mk 1 (1, 1, 1)).CI.2.2 ≤ 1 ∧
      0 ≤ (RocUtils.RocResult.mk 1 (1, 1, 1)).AUC ∧
      (RocUtils.RocResult.mk 1 (1, 1, 1)).AUC ≤ 1 ∧
      (RocUtils.RocResult.mk 1 (1, 1, 1)).CI.2.1 = (RocUtils.RocResult.mk 1 (1, 1, 1)).AUC) :=
  ⟨RocUtils.toyRun, C2_ci_bounds _ _ _ _ _ RocUtils.toyRun⟩

/-- C3: on invalid input (mismatched lengths, fewer than two samples, or a
single-class label set) the estimator fails with the invalid-input error and
never returns a numeric AUC. -/
theorem C3_invalid_input (y : List Bool) (s : List ℚ) (n seed : Nat)
    (h : y.length ≠ s.length ∨ y.length < 2 ∨ Np.numUnique y < 2) :
    (RocUtils.roc_auc_ci y s false n seed).1
      = RocUtils.RocOutcome.err RocUtils.RocError.invalidInput := by
  apply RocUtils.roc_auc_ci_invalid
  cases hsc : Np.rocAucScore y s with
  | none => rfl
  | some a =>
    obtain ⟨h1, h2, h3⟩ := Np.rocAucScore_some_shape hsc
    rcases h with h | h | h <;> omega

/-- C3 witness: a single-class label set fails with the invalid-input
error. -/
theorem C3_invalid_input_witness :
    Np.numUnique [true, true] < 2 ∧
    (RocUtils.roc_auc_ci [true, true] [1/2, 1/3] false 3 7).1
      = RocUtils.RocOutcome.err RocUtils.RocError.invalidInput :=
  ⟨by decide, C3_invalid_input _ _ _ _ (Or.inr (Or.inr (by decide)))⟩

/-- C4: when every bootstrap resample is discarded, so the bootstrap
distribution is empty, the estimator fails with the
insufficient-bootstrap-samples error instead of returning percentiles of an
empty distribution. -/
theorem C4_empty_bootstrap (y : List Bool) (s : List ℚ) (n seed : Nat) (a : ℚ)
    (ha : Np.rocAucScore y s = some a)
    (hb : RocUtils.bootDist y s n seed = []) :
    (RocUtils.roc_auc_ci y s false n seed).1
      = RocUtils.RocOutcome.err RocUtils.RocError.insufficientBootstrapSamples :=
  RocUtils.roc_auc_ci_insufficient ha hb

/-- C4 witness: seed 1 on the two-point dataset discards its only resample
and fails with the insufficient-bootstrap-samples error. -/
theorem C4_empty_bootstrap_witness :
    Np.rocAucScore [false, true] [1/10, 9/10] = some 1 ∧
    RocUtils.bootDist [false, true] [1/10, 9/10] 1 1 = [] ∧
    (RocUtils.roc_auc_ci [false, true] [1/10, 9/10] false 1 1).1
      = RocUtils.RocOutcome.err RocUtils.RocError.insufficientBootstrapSamples :=
  ⟨Np.pairAuc, RocUtils.pairBootEmpty,
    C4_empty_bootstrap _ _ _ _ _ Np.pairAuc RocUtils.pairBootEmpty⟩

/-- C5: the bootstrap loop keeps at most n_bootstrap samples (discarded
iterations contribute nothing and are not retried), and every kept value is
the AUC of a resample drawn as N indices in [0, N) whose labels span both
classes. -/
theorem C5_boot_loop_structure (y : List Bool) (s : List ℚ) (n : Nat)
    (st : Np.MTState) :
    (RocUtils.bootLoop y s n st).1.length ≤ n ∧
    (1 ≤ s.length → ∀ v ∈ (RocUtils.bootLoop y s n st).1,
      ∃ ixs : List Nat, ixs.length = s.length ∧ (∀ i ∈ ixs, i < s.length) ∧
        2 ≤ Np.numUnique (RocUtils.resampleLabels y ixs) ∧
        Np.rocAucScore (RocUtils.resampleLabels y ixs)
          (RocUtils.resampleScores s ixs) = some v) := by
  refine ⟨RocUtils.bootLoop_length_le y s n st, fun hs v hv => ?_⟩
  obtain ⟨st0, h⟩ := RocUtils.bootLoop_mem hv
  obtain ⟨hu, hauc⟩ := RocUtils.bootIter_some h
  refine ⟨RocUtils.bootIndices s st0, ?_, ?_, hu, hauc⟩
  · simpa [RocUtils.bootIndices] using Np.randintFill_length s.length s.length st0
  · intro i hi
    exact Np.randintFill_mem_lt _ _ _ hs hi

/-- C5 witness: the seed-0 run on the three-point dataset keeps one sample,
which satisfies the resample characterisation. -/
theorem C5_boot_loop_structure_witness :
    (RocUtils.bootLoop [false, true, true] [1/2, 2/5, 9/10] 1 (Np.mtInit 0)).1.length ≤ 1 ∧
    1 ≤ ([1/2, 2/5, 9/10] : List ℚ).length ∧
    (0 : ℚ) ∈ (RocUtils.bootLoop [false, true, true] [1/2, 2/5, 9/10] 1 (Np.mtInit 0)).1 ∧
    (∃ ixs : List Nat, ixs.length = ([1/2, 2/5, 9/10] : List ℚ).length ∧
      (∀ i ∈ ixs, i < ([1/2, 2/5, 9/10] : List ℚ).length) ∧
      2 ≤ Np.numUnique (RocUtils.resampleLabels [false, true, true] ixs) ∧
      Np.rocAucScore (RocUtils.resampleLabels [false, true, true] ixs)
        (RocUtils.resampleScores [1/2, 2/5, 9/10] ixs) = some 0) := by
  have hmem : (0 : ℚ) ∈ (RocUtils.bootLoop [false, true, true] [1/2, 2/5, 9/10] 1 (Np.mtInit 0)).1 := by
    have h := RocUtils.triBoot
    unfold RocUtils.bootDist at h
    rw [h]
    simp
  exact ⟨(C5_boot_loop_structure _ _ _ _).1, by norm_num, hmem,
    (C5_boot_loop_structure _ _ _ _).2 (by norm_num) 0 hmem⟩

/-- C6: on a nonempty bootstrap distribution the returned bounds are the
2.5th and 97.5th linear-interpolation percentiles of the sorted
distribution; for a one-element distribution both bounds equal that
element. -/
theorem C6_percentile_interpolation (y : List Bool) (s : List ℚ) (n seed : Nat)
    (a : ℚ) (ha : Np.rocAucScore y s = some a)
    (hb : RocUtils.bootDist y s n seed ≠ []) :
    ∃ lo hi,
      Np.npPercentile (Np.npSort (RocUtils.bootDist y s n seed)) (5/2) = some lo ∧
      Np.npPercentile (Np.npSort (RocUtils.bootDist y s n seed)) (195/2) = some hi ∧
      (RocUtils.roc_auc_ci y s false n seed).1
        = RocUtils.RocOutcome.ok ⟨a, (lo, a, hi)⟩ ∧
      (∀ v : ℚ, RocUtils.bootDist y s n seed = [v] → lo = v ∧ hi = v) := by
  obtain ⟨lo, hi, hp1, hp2, hrun⟩ := RocUtils.roc_auc_ci_ok_of_nonempty ha hb
  refine ⟨lo, hi, hp1, hp2, hrun, fun v hv => ?_⟩
  rw [hv] at hp1 hp2
  have h1 : Np.npSort [v] = [v] := rfl
  rw [h1, Np.npPercentile_single] at hp1 hp2
  exact ⟨(Option.some.inj hp1).symm, (Option.some.inj hp2).symm⟩

/-- C6 witness: the toy run has the one-element distribution [1] and both
bounds collapse to 1. -/
theorem C6_percentile_interpolation_witness :
    Np.rocAucScore [false, true, true, false] [2/10, 8/10, 7/10, 3/10] = some 1 ∧
    RocUtils.bootDist [false, true, true, false] [2/10, 8/10, 7/10, 3/10] 1 42 ≠ [] ∧
    (∃ lo hi,
      Np.npPercentile
        (Np.npSort (RocUtils.bootDist [false, true, true, false] [2/10, 8/10, 7/10, 3/10] 1 42))
        (5/2) = some lo ∧
      Np.npPercentile
        (Np.npSort (RocUtils.bootDist [false, true, true, false] [2/10, 8/10, 7/10, 3/10] 1 42))
        (195/2) = some hi ∧
      (RocUtils.roc_auc_ci [false, true, true, false] [2/10, 8/10, 7/10, 3/10] false 1 42).1
        = RocUtils.RocOutcome.ok ⟨1, (lo, 1, hi)⟩ ∧
      (∀ v : ℚ,
        RocUtils.bootDist [false, true, true, false] [2/10, 8/10, 7/10, 3/10] 1 42 = [v] →
        lo = v ∧ hi = v)) := by
  have hne : RocUtils.bootDist [false, true, true, false] [2/10, 8/10, 7/10, 3/10] 1 42 ≠ [] := by
    rw [RocUtils.toyBoot]
    simp
  exact ⟨Np.toyAuc, hne, C6_percentile_interpolation _ _ _ _ _ Np.toyAuc hne⟩

/-- C7: the estimator is a pure function of labels, scores, help flag,
bootstrap count and seed: equal inputs give equal outputs, and a non-help
run produces no observable side effect. -/
theorem C7_deterministic_pure (y1 y2 : List Bool) (s1 s2 : List ℚ) (h : Bool)
    (n1 n2 seed1 seed2 : Nat) (hy : y1 = y2) (hs : s1 = s2) (hn : n1 = n2)
    (hseed : seed1 = seed2) :
    RocUtils.roc_auc_ci y1 s1 h n1 seed1 = RocUtils.roc_auc_ci y2 s2 h n2 seed2 ∧
    (h = false → (RocUtils.roc_auc_ci y1 s1 h n1 seed1).2 = []) := by
  subst hy hs hn hseed
  refine ⟨rfl, fun hh => ?_⟩
  subst hh
  exact RocUtils.roc_auc_ci_effects _ _ _ _

/-- C7 witness: two identical invocations on the two-point dataset agree and
print nothing. -/
theorem C7_deterministic_pure_witness :
    RocUtils.roc_auc_ci [false, true] [1/10, 9/10] false 1 1
      = RocUtils.roc_auc_ci [false, true] [1/10, 9/10] false 1 1 ∧
    (RocUtils.roc_auc_ci [false, true] [1/10, 9/10] false 1 1).2 = [] :=
  ⟨(C7_deterministic_pure _ _ _ _ _ _ _ _ _ rfl rfl rfl rfl).1,
    (C7_deterministic_pure _ _ _ _ _ _ _ _ _ rfl rfl rfl rfl).2 rfl⟩

/-- C8: on the toy dataset labels [0,1,1,0], scores [0.2,0.8,0.7,0.3] the
rank-based point AUC is exactly 1, both as the value of roc_auc_score and as
the AUC returned by the estimator. -/
theorem C8_toy_dataset_auc :
    Np.rocAucScore [false, true, true, false] [2/10, 8/10, 7/10, 3/10] = some 1 ∧
    (RocUtils.roc_auc_ci [false, true, true, false] [2/10, 8/10, 7/10, 3/10] false 1 42).1
      = RocUtils.RocOutcome.ok ⟨1, (1, 1, 1)⟩ :=
  ⟨Np.toyAuc, RocUtils.toyRun⟩

/-- C9: with the help flag set the function returns the Python None (not a
result dictionary) and only prints the docstring, regardless of every other
argument. -/
theorem C9_help_returns_none (y : List Bool) (s : List ℚ) (n seed : Nat) :
    RocUtils.roc_auc_ci y s true n seed
      = (RocUtils.RocOutcome.noneResult, [RocUtils.Effect.printDoc]) := rfl

/-- C10: whenever the analytic (Hanley-McNeil) estimator of test.py returns,
its clamped interval satisfies 0 ≤ lower ≤ upper ≤ 1. -/
theorem C10_analytic_ci_clamped (y : List Bool) (s : List ℚ) (r : (ℝ × ℝ) × ℝ)
    (h : TestScript.roc_auc_ci y s = some r) :
    0 ≤ r.1.1 ∧ r.1.1 ≤ r.1.2 ∧ r.1.2 ≤ 1 := by
  unfold TestScript.roc_auc_ci at h
  cases hsc : Np.rocAucScore y s with
  | none =>
    rw [hsc] at h
    exact absurd h (by simp)
  | some AUC =>
    rw [hsc] at h
    simp only at h
    split at h
    · exact absurd h (by simp)
    split at h
    · exact absurd h (by simp)
    have hr : r = (TestScript.clampedBounds AUC (y.count true) (y.count false),
        TestScript.seAuc AUC (y.count true) (y.count false)) := (Option.some.inj h).symm
    obtain ⟨hA0, hA1⟩ := Np.rocAucScore_bounds hsc
    have hA0R : (0 : ℝ) ≤ (AUC : ℚ) := by exact_mod_cast hA0
    have hA1R : ((AUC : ℚ) : ℝ) ≤ 1 := by exact_mod_cast hA1
    have hSE : 0 ≤ TestScript.seAuc AUC (y.count true) (y.count false) :=
      Real.sqrt_nonneg _
    have hc : 0 ≤ (196 : ℝ)/100 * TestScript.seAuc AUC (y.count true) (y.count false) := by
      have : (0 : ℝ) ≤ (196 : ℝ)/100 := by norm_num
      exact mul_nonneg this hSE
    rw [hr]
    unfold TestScript.clampedBounds
    refine ⟨?_, ?_, ?_⟩
    · dsimp only
      split
      case isTrue => exact le_refl 0
      case isFalse hlt => linarith [not_lt.mp hlt]
    · dsimp only
      split
      case isTrue hlt =>
        split
        case isTrue => norm_num
        case isFalse hup => linarith
      case isFalse hlt =>
        split
        case isTrue hup => linarith
        case isFalse hup => linarith
    · dsimp only
      split
      case isTrue => exact le_refl 1
      case isFalse hup => linarith [not_lt.mp hup]

/-- C10 witness: the concrete analytic run returns interval (1, 1), which
satisfies the clamped bounds. -/
theorem C10_analytic_ci_clamped_witness :
    TestScript.roc_auc_ci [true, false] [9/10, 1/10] = some ((1, 1), 0) ∧
    (0 ≤ (((1 : ℝ), (1 : ℝ)), (0 : ℝ)).1.1 ∧
      (((1 : ℝ), (1 : ℝ)), (0 : ℝ)).1.1 ≤ (((1 : ℝ), (1 : ℝ)), (0 : ℝ)).1.2 ∧
      (((1 : ℝ), (1 : ℝ)), (0 : ℝ)).1.2 ≤ 1) :=
  ⟨TestScript.testRun, C10_analytic_ci_clamped _ _ _ TestScript.testRun⟩
